import Mathlib

/-!
Verification of the anki-hanja-scraper data pipeline.

Shallow embedding of the pure data-processing core of the repository:
`src/components/input.py` (pattern extraction, modifier pipeline, fusion),
`src/utils/anki_utils.py` (hierarchical tag construction),
`src/components/word.py` (derived-word graph traversal),
`src/components/hanja.py` (hanja entry resolution), and the supporting
utilities (`word_utils.py`, `selenium_driver.py`).

Python dictionaries are embedded as insertion-ordered association lists,
Python exceptions as `Except String`, and the external browser/DOM
(Selenium) as explicit structures describing what each element query
returns.  Standard-library calls without repository logic (`re.match`,
`ast.literal_eval`) are parameters: an abstract matcher / literal parser.
-/

namespace AnkiHanja

/-- Python value: a string, `None`, a list, or an integer.  These are the
value shapes that flow through the record pipeline. -/
inductive Value where
  | str (s : String)
  | pyNone
  | vlist (xs : List Value)
  | vint (n : Int)

/-- A record: a Python dict as an insertion-ordered association list. -/
abbrev Record := List (String × Value)

/-- Python `d[k]` lookup (first binding wins; Python dicts have unique keys). -/
def dictGet {α : Type} : List (String × α) → String → Option α
  | [], _ => none
  | (k2, v) :: rest, k => if k2 = k then some v else dictGet rest k

/-- Python `d[k] = v`: replace the binding in place if the key exists,
otherwise append it (insertion order preserved). -/
def dictSet {α : Type} : List (String × α) → String → α → List (String × α)
  | [], k, v => [(k, v)]
  | (k2, v2) :: rest, k, v =>
    if k2 = k then (k, v) :: rest else (k2, v2) :: dictSet rest k v

/-- A Python `for` loop that builds an output list and lets an exception
escape: the shape shared by `merge_list_of_dicts`, `process_txt_file` and
`create_anki_tags`. -/
def pyMapLoop {α β : Type} (f : α → Except String β) : List α → Except String (List β)
  | [] => .ok []
  | x :: xs =>
    match f x with
    | .error e => .error e
    | .ok y =>
      match pyMapLoop f xs with
      | .error e => .error e
      | .ok ys => .ok (y :: ys)


/-! ### Kernel-computable models of the Python string methods used -/

/-- Worker for `pySplit`: scan left to right, emitting a piece whenever
the separator is a prefix of the remainder.  Fuel is the length of the
scanned list (one character is consumed per step at minimum). -/
def pySplitGo (sep : List Char) : Nat → List Char → List Char → List String
  | _, acc, [] => [String.mk acc.reverse]
  | 0, acc, l => [String.mk (acc.reverse ++ l)]
  | fuel + 1, acc, c :: rest =>
    if sep.isPrefixOf (c :: rest) then
      String.mk acc.reverse :: pySplitGo sep fuel [] ((c :: rest).drop sep.length)
    else pySplitGo sep fuel (c :: acc) rest

/-- Python `s.split(sep)` for a non-empty separator: split on each
non-overlapping occurrence, keeping empty pieces. -/
def pySplit (s sep : String) : List String :=
  match sep.toList with
  | [] => [s]
  | l => pySplitGo l s.toList.length [] s.toList

/-- Python `s.strip()`: drop whitespace from both ends. -/
def pyStrip (s : String) : String :=
  String.mk (((s.toList.dropWhile Char.isWhitespace).reverse.dropWhile
    Char.isWhitespace).reverse)

/-- Python `s.endswith(suffix)`. -/
def pyEndsWith (s suffix : String) : Bool :=
  suffix.toList.isSuffixOf s.toList

/-- Worker for Python `s.split()` with no argument: whitespace tokens,
empty pieces discarded. -/
def wsTokens : List Char → List Char → List String
  | acc, [] => if acc.isEmpty then [] else [String.mk acc.reverse]
  | acc, c :: rest =>
    if c.isWhitespace then
      if acc.isEmpty then wsTokens [] rest
      else String.mk acc.reverse :: wsTokens [] rest
    else wsTokens (c :: acc) rest

/-- Decimal digit accumulator for `pyToInt`; `none` marks both a
non-digit and an empty digit sequence. -/
def digitsToNat : List Char → Option Nat → Option Nat
  | [], acc => acc
  | c :: rest, acc =>
    if c.isDigit then
      match acc with
      | some n => digitsToNat rest (some (n * 10 + (c.toNat - 48)))
      | none => digitsToNat rest (some (c.toNat - 48))
    else none

/-- Python `int(s)`: optional surrounding whitespace, optional sign,
decimal digits; `none` where Python raises `ValueError`. -/
def pyToInt (s : String) : Option Int :=
  match (pyStrip s).toList with
  | [] => none
  | c :: rest =>
    if c = '-' then (digitsToNat rest none).map (fun n => -(n : Int))
    else if c = '+' then (digitsToNat rest none).map (fun n => (n : Int))
    else (digitsToNat (c :: rest) none).map (fun n => (n : Int))

/-- The inner `for key, value in entry2.items()` loop of
`merge_list_of_dicts` (input.py lines 158-165): if the key is already in
the merged dict and holds a list, collapse to the first element
(raising IndexError on an empty list); otherwise the source value
overwrites or is added. -/
def merge_dict_loop (merged : Record) : List (String × Value) → Except String Record
  | [] => .ok merged
  | (key, value) :: rest =>
    match dictGet merged key with
    | some (Value.vlist xs) =>
      match xs.head? with
      | none => .error "IndexError: list index out of range"
      | some a => merge_dict_loop (dictSet merged key a) rest
    | some _ => merge_dict_loop (dictSet merged key value) rest
    | none => merge_dict_loop (dictSet merged key value) rest

/-- Merging one positionally paired `(entry1, entry2)` pair:
`merged_dict = entry1.copy()` followed by the key loop. -/
def merge_dict (entry1 entry2 : Record) : Except String Record :=
  merge_dict_loop entry1 entry2

/-- Embedding of `merge_list_of_dicts` (input.py lines 142-168): `zip` the two record
collections (silently truncating to the shorter) and merge each pair. -/
def merge_list_of_dicts (data1 data2 : List Record) : Except String (List Record) :=
  pyMapLoop (fun p => merge_dict p.1 p.2) (data1.zip data2)

/-- Field-level characterization of the merge result, used to state the
precedence rules: source key absent keeps the input binding; source key
present collapses an input list to its head, otherwise the source value
wins. -/
def mergeSpecGet (entry1 entry2 : Record) (f : String) : Option Value :=
  match dictGet entry2 f with
  | none => dictGet entry1 f
  | some w =>
    match dictGet entry1 f with
    | some (Value.vlist xs) => xs.head?
    | some _ => some w
    | none => some w

/-! ### Pattern extraction (`parse_data_by_regex`, `process_txt_file`) -/

/-- A pattern entry of `parse_data_by_regex` (input.py lines 25-45).
`re.match` is abstracted as a function from the line to the optional
`groupdict` (an ordered list of named captures; a `none` capture value is
a named group that did not participate).  `invalid` covers both a tuple
of the wrong arity and a non-string non-tuple entry: each raises an
uncaught `ValueError`. -/
inductive PatternSpec where
  | single (rule : String → Option (List (String × Option String)))
  | pair (rule : String → Option (List (String × Option String))) (delim : String)
  | invalid

/-- A `groupdict` value stored into the result dict. -/
def capToValue : Option String → Value
  | some s => Value.str s
  | none => Value.pyNone

/-- Model of `result.update(match.groupdict())`. -/
def dictUpdateCaps (result : Record) (gd : List (String × Option String)) : Record :=
  gd.foldl (fun r kv => dictSet r kv.1 (capToValue kv.2)) result

/-- The indexed `for i, pattern in enumerate(patterns)` loop of
`parse_data_by_regex`: pattern `i` matches line `i` (out-of-range access
raises IndexError); a tuple pattern additionally splits its first named
capture by the sub-delimiter (`None.split` raises AttributeError; an
empty `groupdict` makes `list(...)[0]` raise IndexError). -/
def parseLoop (lines : List String) : Nat → List PatternSpec → Record → Except String Record
  | _, [], result => .ok result
  | i, p :: rest, result =>
    match p with
    | .single rule =>
      match lines[i]? with
      | none => .error "IndexError: list index out of range"
      | some line =>
        match rule line with
        | none => parseLoop lines (i + 1) rest result
        | some gd => parseLoop lines (i + 1) rest (dictUpdateCaps result gd)
    | .pair rule delim =>
      match lines[i]? with
      | none => .error "IndexError: list index out of range"
      | some line =>
        match rule line with
        | none => parseLoop lines (i + 1) rest result
        | some gd =>
          let result2 := dictUpdateCaps result gd
          match gd.head? with
          | none => .error "IndexError: list index out of range"
          | some (key, _) =>
            match dictGet result2 key with
            | some (Value.str s) =>
              parseLoop lines (i + 1) rest
                (dictSet result2 key (Value.vlist ((pySplit s delim).map Value.str)))
            | some _ => .error "AttributeError: object has no attribute split"
            | none => parseLoop lines (i + 1) rest result2
    | .invalid => .error "ValueError: invalid pattern"

/-- Embedding of `parse_data_by_regex` (input.py lines 8-47): strip the chunk, split it
into lines, and run the indexed pattern loop over an empty result dict. -/
def parse_data_by_regex (data : String) (patterns : List PatternSpec) : Except String Record :=
  parseLoop (pySplit (pyStrip data) "\n") 0 patterns []

/-- Embedding of `process_txt_file` (input.py lines 50-79) with the file contents
already read: split into chunks by the delimiter and parse each chunk
independently, in order.  (Path resolution and file I/O are outside the
embedding; `content` is the text that was read.) -/
def process_txt_file (content : String) (patterns : List PatternSpec)
    (delimiter : String) : Except String (List Record) :=
  pyMapLoop (fun chunk => parse_data_by_regex chunk patterns) (pySplit content delimiter)

/-- A well-formed pattern set in the sense of the specification: every
entry is a single rule or a (rule, sub-delimiter) pair, and a pair rule
that matches yields exactly one named capture, which participates. -/
def WellFormedPattern : PatternSpec → Prop
  | .single _ => True
  | .pair rule _ => ∀ line gd, rule line = some gd → ∃ k s, gd = [(k, some s)]
  | .invalid => False

/-! ### Modifier pipeline (`apply_modifiers`) -/

/-- A modifier (input.py lines 121-132): either a `(function, column)`
tuple scoped to one field, or a whole-collection function.  Raising
Python functions are embedded as `Except`-valued functions. -/
inductive Modifier where
  | scoped (f : Value → Except String Value) (column : String)
  | whole (f : List Record → Except String (List Record))

/-- The `for entry in data` loop of a scoped modifier, with in-place
mutation: returns the (partially) updated collection, the last record the
loop variable `entry` was bound to, and whether the function raised
(stopping the loop). -/
def applyScoped (f : Value → Except String Value) (column : String) :
    Option Record → List Record → List Record × Option Record × Bool
  | entry0, [] => ([], entry0, false)
  | _, r :: rs =>
    match dictGet r column with
    | none =>
      match applyScoped f column (some r) rs with
      | (rs2, e, err) => (r :: rs2, e, err)
    | some v =>
      match f v with
      | .error _ => (r :: rs, some r, true)
      | .ok v2 =>
        match applyScoped f column (some (dictSet r column v2)) rs with
        | (rs2, e, err) => (dictSet r column v2 :: rs2, e, err)

/-- The `for modifier in modifiers` loop of `apply_modifiers`, threading
the loop variable `entry` of the scoped inner loop (function-scoped in
Python, so it survives across modifiers).  The `except` handler logs
`f"Error in entry: {entry}"`: when `entry` has never been bound this very
line raises `NameError`, which propagates. -/
def applyLoop (data : List Record) (entry : Option Record) :
    List Modifier → Except String (List Record)
  | [] => .ok data
  | m :: rest =>
    match m with
    | .scoped f column =>
      match applyScoped f column entry data with
      | (data2, e, err) =>
        if err then
          match e with
          | none => .error "NameError: name entry is not defined"
          | some _ => applyLoop data2 e rest
        else applyLoop data2 e rest
    | .whole f =>
      match f data with
      | .ok data2 => applyLoop data2 entry rest
      | .error _ =>
        match entry with
        | none => .error "NameError: name entry is not defined"
        | some _ => applyLoop data entry rest

/-- Embedding of `apply_modifiers` (input.py lines 105-139): identity when `modifiers`
is `None` or empty, otherwise the modifier loop. -/
def apply_modifiers (data : List Record) (modifiers : Option (List Modifier)) :
    Except String (List Record) :=
  match modifiers with
  | none => .ok data
  | some [] => .ok data
  | some mods => applyLoop data none mods

/-! ### Hierarchical tag construction (`anki_utils.py`) -/

/-- Left curly brace (written via its code point to keep string literals
plain). -/
def lbrace : Char := Char.ofNat 123

/-- Right curly brace. -/
def rbrace : Char := Char.ofNat 125

/-- Single quote character, for the Python `repr` of strings. -/
def squote : Char := Char.ofNat 39

/-- Python `s.strip(chars)`: drop the given characters from both ends. -/
def pyStripChars (chars : List Char) (s : String) : String :=
  let l := s.toList.dropWhile (fun c => chars.contains c)
  String.mk ((l.reverse.dropWhile (fun c => chars.contains c)).reverse)

/-- The test applied to each entry of `values` in `create_anki_tags`:
Python checks substring containment of both braces. -/
def isBraced (s : String) : Bool :=
  s.toList.contains lbrace && s.toList.contains rbrace

/-- The nested literal structure produced by `ast.literal_eval` on a
formatted tag template: mappings, sequences, strings, integers. -/
inductive Node where
  | nstr (s : String)
  | nint (n : Int)
  | ndict (kvs : List (String × Node))
  | nlist (items : List Node)

mutual

/-- Embedding of `generate_hierarchy` (anki_utils.py lines 61-88) on a node: a dict key
appends a path of its own and recursion continues below `key + delimiter`;
a string terminates the current path; any other scalar at dict-value or
top-level position matches no branch and contributes nothing. -/
def genH (delimiter : String) : Node → String → List String
  | Node.nstr s, path => [path ++ s]
  | Node.nint _, _ => []
  | Node.ndict kvs, path => genHDict delimiter kvs path
  | Node.nlist items, path => genHList delimiter items path

/-- The `for key, value in node.items()` loop of `generate_hierarchy`. -/
def genHDict (delimiter : String) : List (String × Node) → String → List String
  | [], _ => []
  | (k, v) :: rest, path =>
    ((path ++ k) :: genH delimiter v (path ++ k ++ delimiter)) ++ genHDict delimiter rest path

/-- The `for item in node` loop of `generate_hierarchy`: list items do not
extend the path; nested dicts/lists recurse at the same path, scalars are
appended with their `str` form. -/
def genHList (delimiter : String) : List Node → String → List String
  | [], _ => []
  | item :: rest, path => genHItem delimiter item path ++ genHList delimiter rest path

/-- One list item of `generate_hierarchy`. -/
def genHItem (delimiter : String) : Node → String → List String
  | Node.ndict kvs, path => genHDict delimiter kvs path
  | Node.nlist items, path => genHList delimiter items path
  | Node.nstr s, path => [path ++ s]
  | Node.nint n, path => [path ++ toString n]

end

/-- Embedding of `convert_string_to_dict` (anki_utils.py lines 51-59): `ast.literal_eval`
is abstracted as the parser parameter `lit`; a parse failure is logged and
yields an empty dict. -/
def convert_string_to_dict (lit : String → Except String Node) (string : String) : Node :=
  match lit string with
  | .ok n => n
  | .error _ => Node.ndict []

/-- Embedding of `create_hierarchy_instance` (anki_utils.py lines 39-96): parse the
input string and generate the hierarchy list from an empty path. -/
def create_hierarchy_instance (lit : String → Except String Node)
    (input_string : String) (delimiter : String) : List String :=
  genH delimiter (convert_string_to_dict lit input_string) ""

mutual

/-- Python `repr` of a value, as used inside `str` of a list. -/
def pyRepr : Value → String
  | Value.str s => String.singleton squote ++ s ++ String.singleton squote
  | Value.pyNone => "None"
  | Value.vint n => toString n
  | Value.vlist xs => "[" ++ String.intercalate ", " (pyReprList xs) ++ "]"

/-- Python `repr` of each element of a list. -/
def pyReprList : List Value → List String
  | [] => []
  | x :: xs => pyRepr x :: pyReprList xs

end

/-- Python `str` of a value, as applied by `str.format` to each argument. -/
def pyStrV : Value → String
  | Value.str s => s
  | Value.pyNone => "None"
  | Value.vint n => toString n
  | Value.vlist xs => "[" ++ String.intercalate ", " (pyReprList xs) ++ "]"

/-- Python `str.format` with auto-numbered replacement fields, the subset the tag
templates use: a doubled brace is an escaped brace, an empty field takes
the next argument (IndexError when arguments run out), anything else in a
field is outside the templates used by the program. -/
def pyFormatAux : List Char → List String → Except String String
  | [], _ => .ok ""
  | c :: rest, args =>
    if c = lbrace then
      match rest with
      | [] => .error "ValueError: single left brace in format string"
      | c2 :: rest2 =>
        if c2 = lbrace then
          (pyFormatAux rest2 args).map (fun r => String.singleton lbrace ++ r)
        else if c2 = rbrace then
          match args with
          | [] => .error "IndexError: Replacement index out of range"
          | a :: args2 => (pyFormatAux rest2 args2).map (fun r => a ++ r)
        else .error "ValueError: unsupported replacement field"
    else if c = rbrace then
      match rest with
      | [] => .error "ValueError: single right brace in format string"
      | c2 :: rest2 =>
        if c2 = rbrace then
          (pyFormatAux rest2 args).map (fun r => String.singleton rbrace ++ r)
        else .error "ValueError: single right brace in format string"
    else (pyFormatAux rest args).map (fun r => String.singleton c ++ r)

/-- Model of `tag_template.format(*tag_values)`. -/
def pyFormat (template : String) (args : List String) : Except String String :=
  pyFormatAux template.toList args

/-- The `for value in values` loop of `create_anki_tags` (anki_utils.py
lines 19-31): a brace-delimited entry is replaced by the named field of
the record, raising an uncaught `KeyError` if the field is absent; a plain
entry is used literally. -/
def buildTagValues (entry : Record) : List String → Except String (List Value)
  | [] => .ok []
  | value :: rest =>
    if isBraced value then
      match dictGet entry (pyStripChars [lbrace, rbrace] value) with
      | none => .error "KeyError: key not found in entry"
      | some v => (buildTagValues entry rest).map (fun tvs => v :: tvs)
    else (buildTagValues entry rest).map (fun tvs => Value.str value :: tvs)

/-- Processing of one record by `create_anki_tags` (anki_utils.py lines
18-35): resolve the tag values, format the template, generate the
hierarchy, and store the space-joined paths under `tags`. -/
def create_anki_tags_entry (lit : String → Except String Node) (tag_template : String)
    (values : List String) (entry : Record) : Except String Record :=
  match buildTagValues entry values with
  | .error e => .error e
  | .ok tvs =>
    match pyFormat tag_template (tvs.map pyStrV) with
    | .error e => .error e
    | .ok h_str =>
      .ok (dictSet entry "tags"
        (Value.str (String.intercalate " " (create_hierarchy_instance lit h_str "::"))))

/-- Embedding of `create_anki_tags` (anki_utils.py lines 17-36): process every record
of the batch in order; an exception in any record propagates. -/
def create_anki_tags (lit : String → Except String Node) (data : List Record)
    (tag_template : String) (values : List String) : Except String (List Record) :=
  pyMapLoop (create_anki_tags_entry lit tag_template values) data

/-! ### Selenium driver (`selenium_driver.py`) and word utilities -/

/-- Model of `WebDriverWait(...).until(...)`: raises `TimeoutException` when the
element never appears. -/
def webDriverWait (timeoutOccurred : Bool) : Except String Unit :=
  if timeoutOccurred then .error "TimeoutException" else .ok ()

/-- Embedding of `SeleniumDriver.get_await` (selenium_driver.py lines 73-99): the wait
is wrapped in a `try` whose handlers catch `NoSuchElementException` and
`TimeoutException` and only log a warning, so the call always returns. -/
def get_await (timeoutOccurred : Bool) : Except String Unit :=
  match webDriverWait timeoutOccurred with
  | .ok u => .ok u
  | .error _ => .ok ()

/-- Python `s.split()` with no argument: split on whitespace runs,
discarding empty pieces. -/
def pySplitWhitespace (s : String) : List String :=
  wsTokens [] s.toList

/-- Embedding of `filter_by_word_length` (word_utils.py), string branch (the branch
`fetch_word_data` exercises): keep the input when its space-separated
word count lies within the inclusive bounds, else `None`. -/
def filter_by_word_length (input_word : String) (min_length max_length : Nat) : Option String :=
  let words := pySplitWhitespace input_word
  if min_length ≤ words.length ∧ words.length ≤ max_length then some input_word else none

/-! ### Derived-word graph traversal (`word.py`, `fetch_word_data`) -/

/-- The reference-only sentinel suffix (word.py line 127). -/
def etymon_sign : String := "의 어근."

/-- One `.mean_desc .cont` element of a meaning item: the `span.mean`
text (absent element raises, uncaught) and the optional
`span.mean_addition` theme (absence is caught and skipped). -/
structure Cont where
  mean : Option String
  addition : Option String

/-- One `li.mean_item` element: its meaning candidates and the example
texts (after the BeautifulSoup `get_text` extraction). -/
structure MeanItem where
  conts : List Cont
  examples : List String

/-- The detail page of one word id: the optional `dl.entry_default` info
(its `dt` text and the `dd a` hrefs; absence raises
`NoSuchElementException`, which the code catches with `pass`), the
meaning items, and whether `get_await` times out on this page. -/
structure WordNode where
  derived : Option (String × List String)
  meanItems : List MeanItem
  awaitTimeout : Bool

/-- The Python local variable `meaning`: unbound before its first
assignment, then either `None` or a string. -/
inductive PyStrVar where
  | unbound
  | pynone
  | pstr (s : String)
deriving DecidableEq

/-- Truthiness of the `meaning` variable as tested by `if meaning:`;
evaluating an unbound local raises `NameError`. -/
def pyTruthy : PyStrVar → Except String Bool
  | PyStrVar.unbound => .error "NameError: name meaning is not defined"
  | PyStrVar.pynone => .ok false
  | PyStrVar.pstr s => .ok (s ≠ "")

/-- The state of the `while pending_ids:` loop of `fetch_word_data`
(word.py lines 126-207). -/
structure TravState where
  pending_ids : List String
  mean_list : List String
  example_list : List String
  is_meaning_fetched : Bool
  meaning : PyStrVar
deriving DecidableEq

/-- Model of `href.split("/")[-1]`. -/
def lastSegment (href : String) : String :=
  (pySplit href "/").getLastD ""

/-- The `for item in sub_items` push loop (word.py lines 144-147): a
sub-id is appended only when not currently pending. -/
def pushSubIds (pending : List String) (hrefs : List String) : List String :=
  hrefs.foldl
    (fun p href => if lastSegment href ∈ p then p else p ++ [lastSegment href])
    pending

/-- The `for meaning_obj in meaning_objs` loop (word.py lines 163-185),
run only while meanings are not yet fetched: a candidate ending in the
sentinel sets `meaning = None` and is skipped; otherwise the optional
theme is prefixed and the meaning is appended. -/
def processConts (st : TravState) : List Cont → Except String TravState
  | [] => .ok st
  | c :: rest =>
    match c.mean with
    | none => .error "NoSuchElementException: span.mean"
    | some m =>
      if pyEndsWith m etymon_sign then
        processConts { st with meaning := PyStrVar.pynone } rest
      else
        let meaning2 :=
          match c.addition with
          | some theme => "[" ++ theme ++ "] " ++ m
          | none => m
        processConts
          { st with
              mean_list := st.mean_list ++ [meaning2]
              meaning := PyStrVar.pstr meaning2 } rest

/-- The test `if example:` applied to the filtered, stripped example text
(word.py lines 192-202): keep it only when the filter returned a truthy
string. -/
def exampleKept (ex : String) : Option String :=
  match filter_by_word_length (pyStrip ex) 3 9 with
  | some e => if e ≠ "" then some e else none
  | none => none

/-- The `for example_obj in examples` loop: append each kept example. -/
def processExamples (example_list : List String) (examples : List String) : List String :=
  examples.foldl
    (fun acc ex =>
      match exampleKept ex with
      | some e => acc ++ [e]
      | none => acc)
    example_list

/-- The `for mean_obj in mean_objs` loop (word.py lines 157-202): meaning
extraction only while not fetched, example extraction always. -/
def processMeanItems (st : TravState) : List MeanItem → Except String TravState
  | [] => .ok st
  | mi :: rest =>
    match (if st.is_meaning_fetched then .ok st else processConts st mi.conts) with
    | .error e => .error e
    | .ok st2 =>
      processMeanItems
        { st2 with example_list := processExamples st2.example_list mi.examples } rest

/-- The body of one `while` iteration after the pop (word.py lines
133-205): await the page, push unseen sub-ids, extract meanings and
examples, and finally run `if meaning: is_meaning_fetched = True` on the
loop variable. -/
def processNode (node : WordNode) (st : TravState) : Except String TravState :=
  match get_await node.awaitTimeout with
  | .error e => .error e
  | .ok _ =>
    let st1 :=
      match node.derived with
      | none => st
      | some (dt, hrefs) =>
        if dt = "파생어" then { st with pending_ids := pushSubIds st.pending_ids hrefs }
        else st
    match processMeanItems st1 node.meanItems with
    | .error e => .error e
    | .ok st2 =>
      match pyTruthy st2.meaning with
      | .error e => .error e
      | .ok b => .ok (if b then { st2 with is_meaning_fetched := true } else st2)

/-- One `while pending_ids:` iteration: `none` when the frontier is empty
(loop exit), otherwise pop the last id (`list.pop()`) and process its
node.  `src` maps each word id to the detail page it loads. -/
def loopStep (src : String → WordNode) (st : TravState) : Except String (Option TravState) :=
  match st.pending_ids.getLast? with
  | none => .ok none
  | some word_id =>
    match processNode (src word_id) { st with pending_ids := st.pending_ids.dropLast } with
    | .error e => .error e
    | .ok st2 => .ok (some st2)

/-- The `while` loop with explicit fuel (the source enforces no bound; a
cyclic source graph loops forever, which surfaces here as fuel
exhaustion). -/
def fetchLoop (src : String → WordNode) : Nat → TravState → Except String TravState
  | 0, _ => .error "fuel exhausted: traversal did not terminate"
  | fuel + 1, st =>
    match loopStep src st with
    | .error e => .error e
    | .ok none => .ok st
    | .ok (some st2) => fetchLoop src fuel st2

/-- The initial traversal state: the frontier seeded with the root id. -/
def initState (word_id : String) : TravState :=
  { pending_ids := [word_id]
    mean_list := []
    example_list := []
    is_meaning_fetched := false
    meaning := PyStrVar.unbound }

/-- Embedding of `fetch_word_data` (word.py lines 115-207): run the traversal and
return the `means` and `examples` lists. -/
def fetch_word_data (src : String → WordNode) (word_id : String) (fuel : Nat) :
    Except String (List String × List String) :=
  match fetchLoop src fuel (initState word_id) with
  | .error e => .error e
  | .ok st => .ok (st.mean_list, st.example_list)

/-! ### Hanja entry resolution (`hanja.py`, `fetch_hanja_data`) -/

/-- One `.info_item` element of the detail page: the optional `button`,
`.cate` and `.desc` children (`find_element` on an absent child raises). -/
structure InfoItem where
  button : Option String
  cate : Option String
  desc : Option String

/-- What the Content Source returns for the element queries
`fetch_hanja_data` issues, in source order.  `rows` lists the
`.row` search results; each row carries its `.hanja_word .hanja_link`
element as `(text, href)` or `none` when absent. -/
structure HanjaSource where
  searchTimeout : Bool
  rows : List (Option (String × String))
  detailTimeout : Bool
  componentEntry : Bool
  entryMean : Option String
  infos : List InfoItem
  strokeWord : Option String
  conditions : List String

/-- The `hanja_info` dictionary assembled at step 6 of
`fetch_hanja_data`. -/
structure HanjaInfo where
  meaning : String
  radical : String
  strokeCount : Int
  formationLetter : Option (List Char)
  unicode : String
  usage : List String
deriving DecidableEq

/-- Python `int(s)`: surrounding whitespace tolerated, `ValueError` on a
non-numeral. -/
def pyInt (s : String) : Except String Int :=
  match pyToInt s with
  | some n => .ok n
  | none => .error "ValueError: invalid literal for int"

/-- Embedding of `fetch_hanja_data` (hanja.py lines 9-79).  `standardize` abstracts
`standardize_hanja` (a lookup in a mapping file that is not part of the
embedded core).  Timeouts inside `get_await` are caught there; every
`find_element` on an absent element and every out-of-range list index
raises, and nothing in this function catches those.  Only a first
candidate whose link text differs from the standardized query produces
the `(hanja, None, None)` triple. -/
def fetch_hanja_data (standardize : String → String) (src : HanjaSource) (hanja : String) :
    Except String (String × Option String × Option HanjaInfo) :=
  match get_await src.searchTimeout with
  | .error e => .error e
  | .ok _ =>
    match src.rows[0]? with
    | none => .error "IndexError: list index out of range"
    | some row =>
      match row with
      | none => .error "NoSuchElementException: .hanja_word .hanja_link"
      | some (text, href) =>
        if text = standardize hanja then
          let hanja_id := lastSegment href
          match get_await src.detailTimeout with
          | .error e => .error e
          | .ok _ =>
            if !src.componentEntry then .error "NoSuchElementException: .component_entry"
            else
              match src.entryMean with
              | none => .error "NoSuchElementException: .entry_title .mean"
              | some hanja_meaning =>
                match src.infos[0]? with
                | none => .error "IndexError: list index out of range"
                | some info0 =>
                  match info0.button with
                  | none => .error "NoSuchElementException: button"
                  | some hanja_radical =>
                    match src.strokeWord with
                    | none => .error "NoSuchElementException: .stroke span.word"
                    | some strokeText =>
                      match pyInt (String.mk strokeText.toList.dropLast) with
                      | .error e => .error e
                      | .ok hanja_stroke_count =>
                        match src.infos[1]? with
                        | none => .error "IndexError: list index out of range"
                        | some info1 =>
                          match info1.cate with
                          | none => .error "NoSuchElementException: .cate"
                          | some cate1 =>
                            match
                              (if cate1 = "모양자" then
                                match info1.desc with
                                | none =>
                                  Except.error "NoSuchElementException: .desc"
                                | some d =>
                                  match
                                    (pySplit d " + ").mapM (fun seg => seg.toList.head?)
                                  with
                                  | none =>
                                    Except.error "IndexError: string index out of range"
                                  | some cs => Except.ok (some cs)
                              else Except.ok none)
                            with
                            | .error e => .error e
                            | .ok formation_letter =>
                              match src.infos[2]? with
                              | none => .error "IndexError: list index out of range"
                              | some info2 =>
                                match info2.desc with
                                | none => .error "NoSuchElementException: .desc"
                                | some unicodeText =>
                                  .ok (hanja, some hanja_id, some
                                    { meaning := hanja_meaning
                                      radical := hanja_radical
                                      strokeCount := hanja_stroke_count
                                      formationLetter := formation_letter
                                      unicode := unicodeText
                                      usage := src.conditions })
        else .ok (hanja, none, none)

/-! ### Concrete content sources used to evaluate the traversal -/

/-- Return value of `Except`, forgetting the error. -/
def exceptToOption {ε α : Type} : Except ε α → Option α
  | .ok a => some a
  | .error _ => none

/-- A detail page with no derived entries and no meanings. -/
def emptyWordNode : WordNode :=
  { derived := none, meanItems := [], awaitTimeout := false }

/-- Node `A` of the two-node cyclic source: derives `B`, one plain
meaning. -/
def nodeA : WordNode :=
  { derived := some ("파생어", ["e/B"])
    meanItems := [{ conts := [{ mean := some "m1", addition := none }], examples := [] }]
    awaitTimeout := false }

/-- Node `B` of the two-node cyclic source: derives `A` back. -/
def nodeB : WordNode :=
  { derived := some ("파생어", ["e/A"])
    meanItems := [{ conts := [{ mean := some "m2", addition := none }], examples := [] }]
    awaitTimeout := false }

/-- A content source whose derived-entry graph is the 2-cycle
`A ↔ B`. -/
def srcAB : String → WordNode := fun wid =>
  if wid = "A" then nodeA else if wid = "B" then nodeB else emptyWordNode

/-- Node `C`: contributes the plain meaning `m1`, but its last candidate
meaning carries the reference-only sentinel suffix. -/
def nodeC : WordNode :=
  { derived := some ("파생어", ["e/D"])
    meanItems :=
      [{ conts :=
          [{ mean := some "m1", addition := none },
           { mean := some ("y" ++ etymon_sign), addition := none }]
         examples := [] }]
    awaitTimeout := false }

/-- Node `D`: one plain meaning `m2`, no derived entries. -/
def nodeD : WordNode :=
  { derived := none
    meanItems := [{ conts := [{ mean := some "m2", addition := none }], examples := [] }]
    awaitTimeout := false }

/-- A source where the root `C` contributes a meaning without closing
capture, and `D` is visited afterwards. -/
def srcCD : String → WordNode := fun wid =>
  if wid = "C" then nodeC else if wid = "D" then nodeD else emptyWordNode

/-- A search page with no `.row` results at all. -/
def srcRowsEmpty : HanjaSource :=
  { searchTimeout := false, rows := [], detailTimeout := false, componentEntry := true
    entryMean := none, infos := [], strokeWord := none, conditions := [] }

/-- A search page whose first row lacks the `.hanja_word .hanja_link`
element. -/
def srcNoLink : HanjaSource :=
  { searchTimeout := false, rows := [none], detailTimeout := false, componentEntry := true
    entryMean := none, infos := [], strokeWord := none, conditions := [] }

/-! ## Helper lemmas -/

theorem dictGet_dictSet_self {α : Type} (d : List (String × α)) (k : String) (v : α) :
    dictGet (dictSet d k v) k = some v := by
  induction d with
  | nil => simp [dictSet, dictGet]
  | cons hd tl ih =>
    obtain ⟨k2, v2⟩ := hd
    by_cases h : k2 = k
    · simp [dictSet, h, dictGet]
    · simp [dictSet, h, dictGet, ih]

theorem dictGet_dictSet_ne {α : Type} (d : List (String × α)) (k f : String) (v : α)
    (hne : k ≠ f) : dictGet (dictSet d k v) f = dictGet d f := by
  induction d with
  | nil => simp [dictSet, dictGet, hne]
  | cons hd tl ih =>
    obtain ⟨k2, v2⟩ := hd
    by_cases h : k2 = k
    · subst h
      simp [dictSet, dictGet, hne]
    · by_cases h2 : k2 = f
      · subst h2
        simp [dictSet, h, dictGet]
      · simp [dictSet, h, dictGet, h2, ih]

theorem dictGet_eq_none_of_not_mem {α : Type} (d : List (String × α)) (k : String)
    (h : k ∉ d.map Prod.fst) : dictGet d k = none := by
  induction d with
  | nil => rfl
  | cons hd tl ih =>
    obtain ⟨k2, v2⟩ := hd
    rw [List.map_cons, List.mem_cons] at h
    push_neg at h
    obtain ⟨h1, h2⟩ := h
    simp [dictGet, Ne.symm h1, ih h2]

theorem pyMapLoop_ok_of_all {α β : Type} (f : α → Except String β) (l : List α)
    (h : ∀ x ∈ l, ∃ y, f x = .ok y) :
    ∃ out, pyMapLoop f l = .ok out ∧ out.length = l.length ∧
      ∀ (i : Nat) (x : α), l[i]? = some x → out[i]? = exceptToOption (f x) := by
  induction l with
  | nil =>
    refine ⟨[], rfl, rfl, ?_⟩
    intro i x hx
    simp at hx
  | cons hd tl ih =>
    obtain ⟨y, hy⟩ := h hd (List.mem_cons_self hd tl)
    obtain ⟨out, hout, hlen, hidx⟩ := ih (fun x hx => h x (List.mem_cons_of_mem hd hx))
    refine ⟨y :: out, ?_, ?_, ?_⟩
    · simp [pyMapLoop, hy, hout]
    · simp [hlen]
    · intro i x hx
      cases i with
      | zero =>
        simp at hx
        subst hx
        simp [hy, exceptToOption]
      | succ n =>
        simp at hx ⊢
        exact hidx n x hx

theorem pyMapLoop_ok_mem {α β : Type} (f : α → Except String β) :
    ∀ (l : List α) (out : List β), pyMapLoop f l = .ok out →
      ∀ x ∈ l, ∃ y, f x = .ok y := by
  intro l
  induction l with
  | nil =>
    intro out _ x hx
    simp at hx
  | cons hd tl ih =>
    intro out hok x hx
    simp only [pyMapLoop] at hok
    cases hf : f hd with
    | error e => rw [hf] at hok; cases hok
    | ok y =>
      rw [hf] at hok
      cases hrest : pyMapLoop f tl with
      | error e => rw [hrest] at hok; cases hok
      | ok ys =>
        rcases List.mem_cons.mp hx with h | h
        · exact ⟨y, h ▸ hf⟩
        · exact ih ys hrest x h

theorem pyMapLoop_length {α β : Type} (f : α → Except String β) :
    ∀ (l : List α) (out : List β), pyMapLoop f l = .ok out → out.length = l.length := by
  intro l
  induction l with
  | nil =>
    intro out hok
    simp only [pyMapLoop] at hok
    cases hok
    rfl
  | cons hd tl ih =>
    intro out hok
    simp only [pyMapLoop] at hok
    cases hf : f hd with
    | error e => rw [hf] at hok; cases hok
    | ok y =>
      rw [hf] at hok
      cases hrest : pyMapLoop f tl with
      | error e => rw [hrest] at hok; cases hok
      | ok ys =>
        rw [hrest] at hok
        cases hok
        simp [ih ys hrest]

theorem pyMapLoop_ok_index {α β : Type} (f : α → Except String β) :
    ∀ (l : List α) (out : List β) (i : Nat) (x : α) (y : β),
      pyMapLoop f l = .ok out → l[i]? = some x → out[i]? = some y → f x = .ok y := by
  intro l
  induction l with
  | nil =>
    intro out i x y _ hx _
    simp at hx
  | cons hd tl ih =>
    intro out i x y hok hx hy
    simp only [pyMapLoop] at hok
    cases hf : f hd with
    | error e => rw [hf] at hok; cases hok
    | ok y0 =>
      rw [hf] at hok
      cases hrest : pyMapLoop f tl with
      | error e => rw [hrest] at hok; cases hok
      | ok ys =>
        rw [hrest] at hok
        cases hok
        cases i with
        | zero =>
          simp at hx hy
          subst hx; subst hy
          exact hf
        | succ n =>
          simp at hx hy
          exact ih ys n x y hrest hx hy

theorem merge_dict_loop_get :
    ∀ (e2 : List (String × Value)) (merged m : Record),
      (e2.map Prod.fst).Nodup → merge_dict_loop merged e2 = .ok m →
      ∀ f, dictGet m f = mergeSpecGet merged e2 f := by
  intro e2
  induction e2 with
  | nil =>
    intro merged m _ hok f
    simp only [merge_dict_loop] at hok
    cases hok
    simp [mergeSpecGet, dictGet]
  | cons kv rest ih =>
    obtain ⟨k, v⟩ := kv
    intro merged m hnd hok f
    rw [List.map_cons, List.nodup_cons] at hnd
    obtain ⟨hknotin, hndrest⟩ := hnd
    have hrestk : dictGet rest k = none := dictGet_eq_none_of_not_mem rest k hknotin
    have hout :
        ∀ newv : Value, merge_dict_loop (dictSet merged k newv) rest = .ok m →
          dictGet m f = (if f = k then some newv else mergeSpecGet merged rest f) := by
      intro newv hok2
      rw [ih (dictSet merged k newv) m hndrest hok2 f]
      by_cases hfk : f = k
      · subst hfk
        simp [mergeSpecGet, hrestk, dictGet_dictSet_self]
      · have hne : dictGet (dictSet merged k newv) f = dictGet merged f :=
          dictGet_dictSet_ne merged k f newv (fun hh => hfk hh.symm)
        simp only [mergeSpecGet, hne, hfk, if_false]
    have hconsf : ¬f = k → dictGet ((k, v) :: rest) f = dictGet rest f := by
      intro hfk
      simp only [dictGet, if_neg (show ¬k = f from fun hh => hfk hh.symm)]
    have hconsk : dictGet ((k, v) :: rest) k = some v := by
      simp [dictGet]
    simp only [merge_dict_loop] at hok
    cases hmk : dictGet merged k with
    | none =>
      simp only [hmk] at hok
      rw [hout v hok]
      by_cases hfk : f = k
      · subst hfk
        simp [mergeSpecGet, hconsk, hmk]
      · rw [if_neg hfk]
        simp only [mergeSpecGet, hconsf hfk]
    | some mv =>
      cases mv with
      | vlist xs =>
        simp only [hmk] at hok
        cases hhd : xs.head? with
        | none => simp [hhd] at hok
        | some a =>
          simp only [hhd] at hok
          rw [hout a hok]
          by_cases hfk : f = k
          · subst hfk
            simp [mergeSpecGet, hconsk, hmk, hhd]
          · rw [if_neg hfk]
            simp only [mergeSpecGet, hconsf hfk]
      | str s =>
        simp only [hmk] at hok
        rw [hout v hok]
        by_cases hfk : f = k
        · subst hfk
          simp [mergeSpecGet, hconsk, hmk]
        · rw [if_neg hfk]
          simp only [mergeSpecGet, hconsf hfk]
      | pyNone =>
        simp only [hmk] at hok
        rw [hout v hok]
        by_cases hfk : f = k
        · subst hfk
          simp [mergeSpecGet, hconsk, hmk]
        · rw [if_neg hfk]
          simp only [mergeSpecGet, hconsf hfk]
      | vint n =>
        simp only [hmk] at hok
        rw [hout v hok]
        by_cases hfk : f = k
        · subst hfk
          simp [mergeSpecGet, hconsk, hmk]
        · rw [if_neg hfk]
          simp only [mergeSpecGet, hconsf hfk]

theorem merge_dict_loop_ok :
    ∀ (e2 : List (String × Value)) (merged : Record),
      (e2.map Prod.fst).Nodup →
      (∀ k xs, dictGet e2 k ≠ none → dictGet merged k = some (Value.vlist xs) → xs ≠ []) →
      ∃ m, merge_dict_loop merged e2 = .ok m := by
  intro e2
  induction e2 with
  | nil => intro merged _ _; exact ⟨merged, rfl⟩
  | cons kv rest ih =>
    obtain ⟨k, v⟩ := kv
    intro merged hnd hsafe
    rw [List.map_cons, List.nodup_cons] at hnd
    obtain ⟨hknotin, hndrest⟩ := hnd
    have hrest :
        ∀ newv : Value, ∃ m, merge_dict_loop (dictSet merged k newv) rest = .ok m := by
      intro newv
      apply ih (dictSet merged k newv) hndrest
      intro k2 xs hk2 hget
      by_cases hkk : k2 = k
      · subst hkk
        exact absurd (dictGet_eq_none_of_not_mem rest k2 hknotin) hk2
      · rw [dictGet_dictSet_ne merged k k2 newv (fun hh => hkk hh.symm)] at hget
        apply hsafe k2 xs _ hget
        simp only [dictGet, if_neg (show ¬k = k2 from fun hh => hkk hh.symm)]
        exact hk2
    have hmem : dictGet ((k, v) :: rest) k ≠ none := by simp [dictGet]
    cases hmk : dictGet merged k with
    | none =>
      obtain ⟨m, hm⟩ := hrest v
      exact ⟨m, by simp only [merge_dict_loop, hmk]; exact hm⟩
    | some mv =>
      cases mv with
      | vlist xs =>
        have hxs : xs ≠ [] := hsafe k xs hmem hmk
        cases xs with
        | nil => exact absurd rfl hxs
        | cons a tl =>
          obtain ⟨m, hm⟩ := hrest a
          exact ⟨m, by simp only [merge_dict_loop, hmk, List.head?]; exact hm⟩
      | str s =>
        obtain ⟨m, hm⟩ := hrest v
        exact ⟨m, by simp only [merge_dict_loop, hmk]; exact hm⟩
      | pyNone =>
        obtain ⟨m, hm⟩ := hrest v
        exact ⟨m, by simp only [merge_dict_loop, hmk]; exact hm⟩
      | vint n =>
        obtain ⟨m, hm⟩ := hrest v
        exact ⟨m, by simp only [merge_dict_loop, hmk]; exact hm⟩
/-! ## Claims about the fusion engine (C2, C6, C10) -/

/-- Claim C2, counterexample: `merge_list_of_dicts` applied to collections
of lengths 1 and 0 returns a result (`[]`) instead of failing with a
configuration-level error: `zip` silently truncates. -/
theorem merge_length_mismatch_returns :
    merge_list_of_dicts [[("a", Value.str "1")]] [] = .ok [] := rfl

/-- Claim C2, amended: for record collections of differing lengths,
`merge_list_of_dicts` raises no error; it silently pairs records by
position up to the shorter length (as long as each paired merge itself
succeeds) and returns exactly `min` of the two lengths records. -/
theorem merge_zip_truncates (data1 data2 : List Record)
    (h : ∀ p ∈ data1.zip data2, ∃ m, merge_dict p.1 p.2 = .ok m) :
    ∃ out, merge_list_of_dicts data1 data2 = .ok out ∧
      out.length = min data1.length data2.length := by
  obtain ⟨out, hout, hlen, _⟩ := pyMapLoop_ok_of_all _ _ h
  exact ⟨out, hout, by rw [hlen, List.length_zip]⟩

/-- Witness for `merge_zip_truncates` at a 2-versus-1 input. -/
theorem merge_zip_truncates_witness :
    ∃ out,
      merge_list_of_dicts [[("a", Value.str "1")], [("b", Value.str "2")]] [[]] = .ok out ∧
      out.length =
        min ([[("a", Value.str "1")], [("b", Value.str "2")]] : List Record).length
          ([[]] : List Record).length :=
  merge_zip_truncates _ _ (by
    intro p hp
    simp only [List.zip_cons_cons, List.zip_nil_right, List.mem_singleton] at hp
    subst hp
    exact ⟨[("a", Value.str "1")], rfl⟩)

/-- Claim C6: field-level precedence of the fusion merge, for every
positionally paired record pair.  A shared key whose input value is a
non-empty sequence collapses to the sequence's first element; a shared
key with a non-sequence input value takes the source value; a key absent
from the input is added from the source; keys absent from the source
keep their input value. -/
theorem merge_field_precedence
    (data1 data2 out : List Record) (i : Nat) (e1 e2 m : Record)
    (hok : merge_list_of_dicts data1 data2 = .ok out)
    (h1 : data1[i]? = some e1) (h2 : data2[i]? = some e2)
    (hm : out[i]? = some m)
    (hnd : (e2.map Prod.fst).Nodup) :
    (∀ f a rest2, dictGet e1 f = some (Value.vlist (a :: rest2)) →
        dictGet e2 f ≠ none → dictGet m f = some a) ∧
    (∀ f v w, dictGet e1 f = some v → (∀ xs, v ≠ Value.vlist xs) →
        dictGet e2 f = some w → dictGet m f = some w) ∧
    (∀ f w, dictGet e1 f = none → dictGet e2 f = some w → dictGet m f = some w) ∧
    (∀ f, dictGet e2 f = none → dictGet m f = dictGet e1 f) := by
  have hzip : (data1.zip data2)[i]? = some (e1, e2) :=
    List.getElem?_zip_eq_some.mpr ⟨h1, h2⟩
  have hmd : merge_dict_loop e1 e2 = .ok m :=
    pyMapLoop_ok_index _ _ _ i (e1, e2) m hok hzip hm
  have hchar := merge_dict_loop_get e2 e1 m hnd hmd
  refine ⟨?_, ?_, ?_, ?_⟩
  · intro f a rest2 hget hne
    rw [hchar f]
    cases hg2 : dictGet e2 f with
    | none => exact absurd hg2 hne
    | some w => simp [mergeSpecGet, hg2, hget, List.head?]
  · intro f v w hv hnotlist hw
    rw [hchar f]
    cases v with
    | vlist xs => exact absurd rfl (hnotlist xs)
    | str s => simp [mergeSpecGet, hw, hv]
    | pyNone => simp [mergeSpecGet, hw, hv]
    | vint n => simp [mergeSpecGet, hw, hv]
  · intro f w h1f hw
    rw [hchar f]
    simp [mergeSpecGet, hw, h1f]
  · intro f hnone
    rw [hchar f]
    simp [mergeSpecGet, hnone]

/-- The input record of the fusion witness. -/
def fuseIn1 : Record :=
  [("a", Value.vlist [Value.str "x", Value.str "y"]), ("b", Value.str "old"),
   ("keep", Value.str "k")]

/-- The source record of the fusion witness. -/
def fuseIn2 : Record :=
  [("a", Value.str "src"), ("b", Value.str "new"), ("c", Value.str "add")]

/-- The fused record of the fusion witness. -/
def fuseOut : Record :=
  [("a", Value.str "x"), ("b", Value.str "new"), ("keep", Value.str "k"),
   ("c", Value.str "add")]

/-- Witness for `merge_field_precedence` on a concrete pair exercising
all four precedence rules. -/
theorem merge_field_precedence_witness :
    (∀ f a rest2, dictGet fuseIn1 f = some (Value.vlist (a :: rest2)) →
        dictGet fuseIn2 f ≠ none → dictGet fuseOut f = some a) ∧
    (∀ f v w, dictGet fuseIn1 f = some v → (∀ xs, v ≠ Value.vlist xs) →
        dictGet fuseIn2 f = some w → dictGet fuseOut f = some w) ∧
    (∀ f w, dictGet fuseIn1 f = none → dictGet fuseIn2 f = some w →
        dictGet fuseOut f = some w) ∧
    (∀ f, dictGet fuseIn2 f = none → dictGet fuseOut f = dictGet fuseIn1 f) :=
  merge_field_precedence [fuseIn1] [fuseIn2] [fuseOut] 0 fuseIn1 fuseIn2 fuseOut
    rfl rfl rfl rfl (by decide)

/-- Claim C10: the `[0]` collapse of `merge_list_of_dicts` is in bounds —
and the merge returns normally — whenever every key shared with the
source maps, in the input record, to a non-empty sequence if it maps to a
sequence at all; and on a pair where an input record maps a shared key to
an empty sequence, the lookup fails and the merge returns no result. -/
theorem merge_first_element_indexing :
    (∀ data1 data2 : List Record,
        (∀ p ∈ data1.zip data2, (p.2.map Prod.fst).Nodup ∧
          ∀ k xs, dictGet p.2 k ≠ none → dictGet p.1 k = some (Value.vlist xs) → xs ≠ []) →
        ∃ out, merge_list_of_dicts data1 data2 = .ok out) ∧
    merge_list_of_dicts [[("f", Value.vlist [])]] [[("f", Value.str "x")]] =
      .error "IndexError: list index out of range" := by
  constructor
  · intro data1 data2 h
    obtain ⟨out, hout, _, _⟩ := pyMapLoop_ok_of_all _ _ (fun p hp =>
      merge_dict_loop_ok p.2 p.1 (h p hp).1 (h p hp).2)
    exact ⟨out, hout⟩
  · rfl

/-- Witness for the universally quantified half of
`merge_first_element_indexing`, at a pair whose shared key holds a
non-empty input sequence. -/
theorem merge_first_element_indexing_witness :
    ∃ out,
      merge_list_of_dicts [[("g", Value.vlist [Value.str "a"])]] [[("g", Value.str "s")]] =
        .ok out :=
  merge_first_element_indexing.1 _ _ (by
    intro p hp
    simp only [List.zip_cons_cons, List.zip_nil_right, List.mem_singleton] at hp
    subst hp
    refine ⟨by decide, ?_⟩
    intro k xs hk hget
    by_cases hkg : "g" = k
    · subst hkg
      simp only [dictGet, if_pos rfl] at hget
      injection hget with hv
      cases hv
      intro hnil
      cases hnil
    · simp only [dictGet, if_neg hkg] at hk
      exact absurd rfl hk)

/-! ## Claim about the pattern extractor (C8) -/

theorem parseLoop_ok :
    ∀ (ps : List PatternSpec) (lines : List String) (i : Nat) (result : Record),
      (∀ p ∈ ps, WellFormedPattern p) → i + ps.length ≤ lines.length →
      ∃ r, parseLoop lines i ps result = .ok r := by
  intro ps
  induction ps with
  | nil => intro lines i result _ _; exact ⟨result, rfl⟩
  | cons p rest ih =>
    intro lines i result hwf hlen
    have hi : i < lines.length := by
      simp only [List.length_cons] at hlen
      omega
    have hline : lines[i]? = some lines[i] := List.getElem?_eq_getElem hi
    have hwfrest : ∀ q ∈ rest, WellFormedPattern q :=
      fun q hq => hwf q (List.mem_cons_of_mem p hq)
    have hlenrest : i + 1 + rest.length ≤ lines.length := by
      simp only [List.length_cons] at hlen
      omega
    cases p with
    | single rule =>
      cases hr : rule lines[i] with
      | none =>
        obtain ⟨r, hrr⟩ := ih lines (i + 1) result hwfrest hlenrest
        exact ⟨r, by simp only [parseLoop, hline, hr]; exact hrr⟩
      | some gd =>
        obtain ⟨r, hrr⟩ := ih lines (i + 1) (dictUpdateCaps result gd) hwfrest hlenrest
        exact ⟨r, by simp only [parseLoop, hline, hr]; exact hrr⟩
    | pair rule delim =>
      cases hr : rule lines[i] with
      | none =>
        obtain ⟨r, hrr⟩ := ih lines (i + 1) result hwfrest hlenrest
        exact ⟨r, by simp only [parseLoop, hline, hr]; exact hrr⟩
      | some gd =>
        have hwfp := hwf (.pair rule delim) (List.mem_cons_self _ _)
        simp only [WellFormedPattern] at hwfp
        obtain ⟨k, s, hgd⟩ := hwfp lines[i] gd hr
        subst hgd
        have hget : dictGet (dictSet result k (Value.str s)) k = some (Value.str s) :=
          dictGet_dictSet_self result k (Value.str s)
        obtain ⟨r, hrr⟩ := ih lines (i + 1)
          (dictSet (dictSet result k (Value.str s)) k
            (Value.vlist ((pySplit s delim).map Value.str))) hwfrest hlenrest
        refine ⟨r, ?_⟩
        simp only [parseLoop, hline, hr, dictUpdateCaps, List.foldl_cons, List.foldl_nil,
          capToValue, List.head?, hget]
        exact hrr
    | invalid =>
      exact absurd (hwf .invalid (List.mem_cons_self _ _)) (by simp [WellFormedPattern])

/-- Claim C8: for a well-formed pattern set and a raw text whose chunks
each have at least as many lines as there are patterns, extraction
succeeds, produces exactly one record per chunk in input order, and each
record is a function of its own chunk alone. -/
theorem process_txt_file_chunkwise (content : String) (patterns : List PatternSpec)
    (delimiter : String)
    (hwf : ∀ p ∈ patterns, WellFormedPattern p)
    (hlines : ∀ c ∈ pySplit content delimiter,
        patterns.length ≤ (pySplit (pyStrip c) "\n").length) :
    ∃ out, process_txt_file content patterns delimiter = .ok out ∧
      out.length = (pySplit content delimiter).length ∧
      ∀ (i : Nat) (c : String), (pySplit content delimiter)[i]? = some c →
        out[i]? = exceptToOption (parse_data_by_regex c patterns) := by
  have hall : ∀ c ∈ pySplit content delimiter,
      ∃ r, parse_data_by_regex c patterns = .ok r := by
    intro c hc
    exact parseLoop_ok patterns _ 0 [] hwf (by simpa using hlines c hc)
  obtain ⟨out, hout, hlen, hidx⟩ := pyMapLoop_ok_of_all _ _ hall
  exact ⟨out, hout, hlen, hidx⟩

/-- A single-rule matcher capturing the whole line as `meaning`. -/
def ruleLine : String → Option (List (String × Option String)) := fun line =>
  some [("meaning", some line)]

/-- A pair-rule matcher capturing the whole line as `words` (to be split
by the sub-delimiter). -/
def ruleWords : String → Option (List (String × Option String)) := fun line =>
  some [("words", some line)]

/-- Witness for `process_txt_file_chunkwise` on a two-chunk input with a
single-rule pattern and a paired pattern. -/
theorem process_txt_file_chunkwise_witness :
    ∃ out,
      process_txt_file "a\nx;y\n\nb\nz;w"
        [PatternSpec.single ruleLine, PatternSpec.pair ruleWords ";"] "\n\n" = .ok out ∧
      out.length = (pySplit "a\nx;y\n\nb\nz;w" "\n\n").length ∧
      ∀ (i : Nat) (c : String), (pySplit "a\nx;y\n\nb\nz;w" "\n\n")[i]? = some c →
        out[i]? = exceptToOption (parse_data_by_regex c
          [PatternSpec.single ruleLine, PatternSpec.pair ruleWords ";"]) :=
  process_txt_file_chunkwise _ _ _
    (by
      intro p hp
      simp only [List.mem_cons, List.mem_singleton] at hp
      rcases hp with h | h | h
      · subst h; trivial
      · subst h
        intro line gd hr
        simp only [ruleWords, Option.some.injEq] at hr
        exact ⟨"words", line, hr.symm⟩
      · cases h)
    (by decide)

/-! ## Claim about the modifier pipeline (C3) -/

/-- Claim C3: evaluation at the failing input.  When the first raising
modifier is a whole-collection modifier and no scoped modifier has run
before it, the `except` handler itself raises `NameError` while logging
the unbound loop variable `entry`, and that exception propagates out of
`apply_modifiers` — contradicting the claim that no modifier exception
escapes. -/
theorem apply_modifiers_nameerror :
    apply_modifiers [[("x", Value.str "1")]]
      (some [Modifier.whole (fun _ => Except.error "boom")]) =
      .error "NameError: name entry is not defined" := rfl

/-! ## Claim about hierarchical path generation (C5) -/

/-- Claim C5, counterexample: on the structure produced by
`literal_eval` of a mapping `A` to the sequence of `x` and the mapping
`B` to `y`, `generate_hierarchy` with delimiter `::` yields four paths —
the claimed path `Ax` is not among them and the space-join differs from
the claimed `Ax AB::y`. -/
theorem hierarchy_paths_counterexample :
    genH "::"
        (Node.ndict [("A", Node.nlist [Node.nstr "x", Node.ndict [("B", Node.nstr "y")]])])
        "" =
      ["A", "A::x", "A::B", "A::B::y"] ∧
    "Ax" ∉ genH "::"
        (Node.ndict [("A", Node.nlist [Node.nstr "x", Node.ndict [("B", Node.nstr "y")]])])
        "" ∧
    String.intercalate " "
        (genH "::"
          (Node.ndict [("A", Node.nlist [Node.nstr "x", Node.ndict [("B", Node.nstr "y")]])])
          "") ≠ "Ax AB::y" :=
  ⟨rfl, by decide, by decide⟩

/-- Claim C5, amended: every mapping key contributes a path of its own
and list items are appended after the delimiter-extended path, so the
structure yields the path list `A`, `A::x`, `A::B`, `A::B::y`, joined by
single spaces. -/
theorem hierarchy_paths_amended :
    genH "::"
        (Node.ndict [("A", Node.nlist [Node.nstr "x", Node.ndict [("B", Node.nstr "y")]])])
        "" =
      ["A", "A::x", "A::B", "A::B::y"] ∧
    String.intercalate " "
        (genH "::"
          (Node.ndict [("A", Node.nlist [Node.nstr "x", Node.ndict [("B", Node.nstr "y")]])])
          "") = "A A::x A::B A::B::y" :=
  ⟨rfl, rfl⟩

/-! ## Claim about tag construction error handling (C4) -/

theorem buildTagValues_missing :
    ∀ (values : List String) (entry : Record) (v : String),
      v ∈ values → isBraced v = true →
      dictGet entry (pyStripChars [lbrace, rbrace] v) = none →
      ∃ e, buildTagValues entry values = .error e := by
  intro values
  induction values with
  | nil =>
    intro entry v hv
    simp at hv
  | cons v0 rest ih =>
    intro entry v hv hb hmiss
    rcases List.mem_cons.mp hv with h | h
    · subst h
      exact ⟨"KeyError: key not found in entry",
        by simp only [buildTagValues, hb, if_true, hmiss]⟩
    · cases hb0 : isBraced v0 with
      | true =>
        cases hg : dictGet entry (pyStripChars [lbrace, rbrace] v0) with
        | none =>
          exact ⟨"KeyError: key not found in entry",
            by simp only [buildTagValues, hb0, if_true, hg]⟩
        | some w =>
          obtain ⟨e, he⟩ := ih entry v h hb hmiss
          exact ⟨e, by simp only [buildTagValues, hb0, if_true, hg, he, Except.map]⟩
      | false =>
        obtain ⟨e, he⟩ := ih entry v h hb hmiss
        exact ⟨e, by simp only [buildTagValues, hb0, Bool.false_eq_true, if_false, he,
          Except.map]⟩

/-- A literal-structure parser oracle that always fails (the parse result
is irrelevant to the error-handling claim). -/
def litFail : String → Except String Node := fun _ => .error "SyntaxError"

/-- Claim C4, counterexample: a brace-delimited placeholder naming a
field absent from the first record makes `create_anki_tags` raise
`KeyError`: the batch aborts and the second record — which does carry the
field — never receives a `tags` field, since no record collection is
returned at all. -/
theorem create_anki_tags_abort_concrete :
    create_anki_tags litFail
        [[("name", Value.str "r1")], [("missing", Value.str "v"), ("name", Value.str "r2")]]
        "\x7b\x7d" ["\x7bmissing\x7d"] =
      .error "KeyError: key not found in entry" := rfl

/-- Claim C4, amended: a brace-delimited placeholder naming a field
absent from any record of the batch makes `create_anki_tags` propagate
the `KeyError`: the whole batch aborts and no record collection is
produced. -/
theorem create_anki_tags_missing_field_aborts
    (lit : String → Except String Node) (data : List Record) (tag_template : String)
    (values : List String) (entry : Record) (v : String)
    (hent : entry ∈ data) (hv : v ∈ values) (hb : isBraced v = true)
    (hmiss : dictGet entry (pyStripChars [lbrace, rbrace] v) = none) :
    ∀ out, create_anki_tags lit data tag_template values ≠ .ok out := by
  intro out hok
  obtain ⟨y, hy⟩ := pyMapLoop_ok_mem _ data out hok entry hent
  obtain ⟨e, he⟩ := buildTagValues_missing values entry v hv hb hmiss
  simp only [create_anki_tags_entry, he] at hy
  cases hy

/-- Witness for `create_anki_tags_missing_field_aborts` at a concrete
one-record batch. -/
theorem create_anki_tags_missing_field_witness :
    create_anki_tags litFail [[("name", Value.str "r1")]] "\x7b\x7d" ["\x7bmissing\x7d"] ≠
      .ok [] :=
  create_anki_tags_missing_field_aborts litFail [[("name", Value.str "r1")]]
    "\x7b\x7d" ["\x7bmissing\x7d"] [("name", Value.str "r1")] "\x7bmissing\x7d"
    (List.mem_singleton.mpr rfl) (List.mem_singleton.mpr rfl) rfl rfl []

/-! ## Traversal lemmas (for C1 and C7) -/

theorem get_await_ok : ∀ b, get_await b = .ok () := by
  intro b
  cases b <;> rfl

theorem processConts_invar :
    ∀ (cs : List Cont) (st st2 : TravState),
      processConts st cs = .ok st2 →
      st2.pending_ids = st.pending_ids ∧ st2.is_meaning_fetched = st.is_meaning_fetched ∧
        st2.example_list = st.example_list := by
  intro cs
  induction cs with
  | nil =>
    intro st st2 hok
    cases hok
    exact ⟨rfl, rfl, rfl⟩
  | cons c rest ih =>
    intro st st2 hok
    simp only [processConts] at hok
    cases hc : c.mean with
    | none => simp [hc] at hok
    | some m =>
      simp only [hc] at hok
      split at hok
      · have h := ih _ _ hok
        exact h
      · have h := ih _ _ hok
        exact h

theorem processMeanItems_invar :
    ∀ (mis : List MeanItem) (st st2 : TravState),
      processMeanItems st mis = .ok st2 →
      st2.pending_ids = st.pending_ids ∧ st2.is_meaning_fetched = st.is_meaning_fetched := by
  intro mis
  induction mis with
  | nil =>
    intro st st2 hok
    cases hok
    exact ⟨rfl, rfl⟩
  | cons mi rest ih =>
    intro st st2 hok
    by_cases hf : st.is_meaning_fetched = true
    · simp only [processMeanItems, if_pos hf] at hok
      have h := ih _ _ hok
      exact ⟨h.1, h.2⟩
    · simp only [processMeanItems, if_neg hf] at hok
      cases hpc : processConts st mi.conts with
      | error e => simp [hpc] at hok
      | ok st3 =>
        simp only [hpc] at hok
        obtain ⟨hp, hfch, _⟩ := processConts_invar mi.conts st st3 hpc
        have h := ih _ _ hok
        exact ⟨h.1.trans hp, h.2.trans hfch⟩

theorem processExamples_spec :
    ∀ (exs : List String) (acc : List String),
      processExamples acc exs = acc ++ exs.filterMap exampleKept := by
  intro exs
  induction exs with
  | nil => intro acc; simp [processExamples]
  | cons e rest ih =>
    intro acc
    simp only [processExamples, List.foldl_cons] at ih ⊢
    cases hk : exampleKept e with
    | some y =>
      simp only [hk, List.filterMap_cons_some hk]
      rw [ih (acc ++ [y])]
      simp
    | none =>
      simp only [hk, List.filterMap_cons_none hk]
      exact ih acc

theorem processMeanItems_examples :
    ∀ (mis : List MeanItem) (st st2 : TravState),
      processMeanItems st mis = .ok st2 →
      st2.example_list = st.example_list ++
        (mis.map (fun mi => mi.examples.filterMap exampleKept)).join := by
  intro mis
  induction mis with
  | nil =>
    intro st st2 hok
    cases hok
    simp
  | cons mi rest ih =>
    intro st st2 hok
    by_cases hf : st.is_meaning_fetched = true
    · simp only [processMeanItems, if_pos hf] at hok
      have h2 := ih _ _ hok
      rw [h2]
      simp only [processExamples_spec, List.map_cons, List.join_cons, List.append_assoc]
    · simp only [processMeanItems, if_neg hf] at hok
      cases hpc : processConts st mi.conts with
      | error e => simp [hpc] at hok
      | ok st3 =>
        simp only [hpc] at hok
        have hex := (processConts_invar mi.conts st st3 hpc).2.2
        have h2 := ih _ _ hok
        rw [h2]
        simp only [processExamples_spec, hex, List.map_cons, List.join_cons,
          List.append_assoc]

theorem processMeanItems_fetched_closed :
    ∀ (mis : List MeanItem) (st st2 : TravState),
      st.is_meaning_fetched = true → processMeanItems st mis = .ok st2 →
      st2.mean_list = st.mean_list ∧ st2.meaning = st.meaning ∧
        st2.is_meaning_fetched = true := by
  intro mis
  induction mis with
  | nil =>
    intro st st2 hf hok
    cases hok
    exact ⟨rfl, rfl, hf⟩
  | cons mi rest ih =>
    intro st st2 hf hok
    simp only [processMeanItems, if_pos hf] at hok
    have h := ih { st with example_list := processExamples st.example_list mi.examples }
      st2 hf hok
    exact h

theorem processConts_all_sentinel :
    ∀ (cs : List Cont) (st st2 : TravState),
      (∀ c ∈ cs, ∃ m, c.mean = some m ∧ pyEndsWith m etymon_sign = true) →
      processConts st cs = .ok st2 →
      st2.mean_list = st.mean_list ∧
        (st2.meaning = st.meaning ∨ st2.meaning = PyStrVar.pynone) := by
  intro cs
  induction cs with
  | nil =>
    intro st st2 _ hok
    cases hok
    exact ⟨rfl, Or.inl rfl⟩
  | cons c rest ih =>
    intro st st2 hall hok
    obtain ⟨m, hm, hsent⟩ := hall c (List.mem_cons_self _ _)
    simp only [processConts, hm, hsent, if_true] at hok
    obtain ⟨h1, h2⟩ := ih _ _ (fun c2 hc2 => hall c2 (List.mem_cons_of_mem _ hc2)) hok
    exact ⟨h1, Or.inr (h2.elim (fun h => h) (fun h => h))⟩

theorem processMeanItems_all_sentinel :
    ∀ (mis : List MeanItem) (st st2 : TravState),
      st.is_meaning_fetched = false →
      (∀ c ∈ (mis.map MeanItem.conts).join,
        ∃ m, c.mean = some m ∧ pyEndsWith m etymon_sign = true) →
      processMeanItems st mis = .ok st2 →
      st2.mean_list = st.mean_list ∧
        (st2.meaning = st.meaning ∨ st2.meaning = PyStrVar.pynone) ∧
        st2.is_meaning_fetched = false := by
  intro mis
  induction mis with
  | nil =>
    intro st st2 hf _ hok
    cases hok
    exact ⟨rfl, Or.inl rfl, hf⟩
  | cons mi rest ih =>
    intro st st2 hf hall hok
    have hallmi : ∀ c ∈ mi.conts, ∃ m, c.mean = some m ∧ pyEndsWith m etymon_sign = true :=
      fun c hc => hall c (by
        simp only [List.map_cons, List.join_cons, List.mem_append]
        exact Or.inl hc)
    have hallrest : ∀ c ∈ (rest.map MeanItem.conts).join,
        ∃ m, c.mean = some m ∧ pyEndsWith m etymon_sign = true :=
      fun c hc => hall c (by
        simp only [List.map_cons, List.join_cons, List.mem_append]
        exact Or.inr hc)
    have hfneg : ¬st.is_meaning_fetched = true := by simp [hf]
    simp only [processMeanItems, if_neg hfneg] at hok
    cases hpc : processConts st mi.conts with
    | error e => simp [hpc] at hok
    | ok st3 =>
      simp only [hpc] at hok
      obtain ⟨h1, h2⟩ := processConts_all_sentinel mi.conts st st3 hallmi hpc
      have hf3 : st3.is_meaning_fetched = false :=
        ((processConts_invar mi.conts st st3 hpc).2.1).trans hf
      obtain ⟨h4, h5, h6⟩ := ih
        { st3 with example_list := processExamples st3.example_list mi.examples }
        st2 hf3 hallrest hok
      refine ⟨h4.trans h1, ?_, h6⟩
      rcases h5 with h | h
      · rcases h2 with h7 | h7
        · exact Or.inl (h.trans h7)
        · exact Or.inr (h.trans h7)
      · exact Or.inr h

theorem pushSubIds_nodup :
    ∀ (hrefs : List String) (pending : List String),
      pending.Nodup → (pushSubIds pending hrefs).Nodup := by
  intro hrefs
  induction hrefs with
  | nil => intro p hp; exact hp
  | cons h rest ih =>
    intro p hp
    have hstep : (if lastSegment h ∈ p then p else p ++ [lastSegment h]).Nodup := by
      by_cases hm : lastSegment h ∈ p
      · simpa [hm] using hp
      · rw [if_neg hm]
        exact hp.append (List.nodup_singleton _)
          (fun x hx hx2 => hm (by rwa [List.mem_singleton.mp hx2] at hx))
    have hrw : pushSubIds p (h :: rest) =
        pushSubIds (if lastSegment h ∈ p then p else p ++ [lastSegment h]) rest := by
      simp only [pushSubIds, List.foldl_cons]
    rw [hrw]
    exact ih _ hstep

theorem processNode_decomp (node : WordNode) (st st2 : TravState)
    (hok : processNode node st = .ok st2) :
    ∃ st1 : TravState,
      (st1.pending_ids = st.pending_ids ∨
        ∃ hrefs, st1.pending_ids = pushSubIds st.pending_ids hrefs) ∧
      st1.mean_list = st.mean_list ∧ st1.is_meaning_fetched = st.is_meaning_fetched ∧
      st1.meaning = st.meaning ∧ st1.example_list = st.example_list ∧
      ∃ st3, processMeanItems st1 node.meanItems = .ok st3 ∧
        ∃ b, pyTruthy st3.meaning = .ok b ∧
          st2 = if b then { st3 with is_meaning_fetched := true } else st3 := by
  simp only [processNode, get_await_ok] at hok
  cases hd : node.derived with
  | none =>
    simp only [hd] at hok
    refine ⟨st, Or.inl rfl, rfl, rfl, rfl, rfl, ?_⟩
    cases hpm : processMeanItems st node.meanItems with
    | error e => simp [hpm] at hok
    | ok st3 =>
      simp only [hpm] at hok
      cases hpt : pyTruthy st3.meaning with
      | error e => simp [hpt] at hok
      | ok b =>
        simp only [hpt, Except.ok.injEq] at hok
        exact ⟨st3, rfl, b, hpt, hok.symm⟩
  | some pr =>
    obtain ⟨dt, hrefs⟩ := pr
    simp only [hd] at hok
    by_cases hdt : dt = "파생어"
    · rw [if_pos hdt] at hok
      refine ⟨{ st with pending_ids := pushSubIds st.pending_ids hrefs },
        Or.inr ⟨hrefs, rfl⟩, rfl, rfl, rfl, rfl, ?_⟩
      cases hpm : processMeanItems
          { st with pending_ids := pushSubIds st.pending_ids hrefs } node.meanItems with
      | error e => simp [hpm] at hok
      | ok st3 =>
        simp only [hpm] at hok
        cases hpt : pyTruthy st3.meaning with
        | error e => simp [hpt] at hok
        | ok b =>
          simp only [hpt, Except.ok.injEq] at hok
          exact ⟨st3, rfl, b, hpt, hok.symm⟩
    · rw [if_neg hdt] at hok
      refine ⟨st, Or.inl rfl, rfl, rfl, rfl, rfl, ?_⟩
      cases hpm : processMeanItems st node.meanItems with
      | error e => simp [hpm] at hok
      | ok st3 =>
        simp only [hpm] at hok
        cases hpt : pyTruthy st3.meaning with
        | error e => simp [hpt] at hok
        | ok b =>
          simp only [hpt, Except.ok.injEq] at hok
          exact ⟨st3, rfl, b, hpt, hok.symm⟩

/-! ## Claim about traversal deduplication (C1) -/

/-- The traversal state after visiting `A` in the cyclic source. -/
def stAB1 : TravState :=
  { pending_ids := ["B"], mean_list := ["m1"], example_list := [],
    is_meaning_fetched := true, meaning := PyStrVar.pstr "m1" }

/-- The traversal state after additionally visiting `B`. -/
def stAB2 : TravState :=
  { pending_ids := ["A"], mean_list := ["m1"], example_list := [],
    is_meaning_fetched := true, meaning := PyStrVar.pstr "m1" }

/-- Claim C1, counterexample: on the two-node cyclic source, the root
`A` is popped in the first iteration (it no longer appears in the
frontier of `stAB1`), yet after the second iteration — in which `B`
references `A` — the already-visited id `A` is back in the frontier: it
is enqueued a second time.  There is no `visited` set; dedup is by the
frontier alone. -/
theorem traversal_frontier_reentry :
    loopStep srcAB (initState "A") = .ok (some stAB1) ∧
    "A" ∉ stAB1.pending_ids ∧
    loopStep srcAB stAB1 = .ok (some stAB2) ∧
    "A" ∈ stAB2.pending_ids :=
  ⟨rfl, by decide, rfl, by decide⟩

/-- Claim C1, amended: deduplication is against the current frontier
only — a sub-id is never pushed while already pending, so a
duplicate-free frontier stays duplicate-free across every iteration; but
an id that has already been popped may re-enter the frontier and be
visited again. -/
theorem frontier_nodup_invariant (src : String → WordNode) (st st2 : TravState)
    (hnd : st.pending_ids.Nodup) (h : loopStep src st = .ok (some st2)) :
    st2.pending_ids.Nodup := by
  simp only [loopStep] at h
  cases hlast : st.pending_ids.getLast? with
  | none => simp [hlast] at h
  | some wid =>
    simp only [hlast] at h
    cases hpn : processNode (src wid) { st with pending_ids := st.pending_ids.dropLast } with
    | error e => simp [hpn] at h
    | ok st3 =>
      simp only [hpn, Except.ok.injEq, Option.some.injEq] at h
      subst h
      have hdrop : st.pending_ids.dropLast.Nodup :=
        (List.dropLast_sublist st.pending_ids).nodup hnd
      obtain ⟨st1, hpend, _, _, _, _, st4, hpm, b, _, hst2⟩ :=
        processNode_decomp _ _ _ hpn
      have h4 := (processMeanItems_invar _ _ _ hpm).1
      have hp2 : st3.pending_ids = st4.pending_ids := by
        rw [hst2]
        cases b <;> rfl
      rw [hp2, h4]
      rcases hpend with h | ⟨hrefs, h⟩
      · rw [h]
        exact hdrop
      · rw [h]
        exact pushSubIds_nodup hrefs _ hdrop

/-- Witness for `frontier_nodup_invariant`: the seeded frontier is
duplicate-free and stays so across the first iteration. -/
theorem frontier_nodup_invariant_witness :
    (initState "A").pending_ids.Nodup ∧
    loopStep srcAB (initState "A") = .ok (some stAB1) ∧
    stAB1.pending_ids.Nodup :=
  ⟨by decide, rfl, frontier_nodup_invariant srcAB (initState "A") stAB1 (by decide) rfl⟩

/-! ## Claim about one-shot meaning capture (C7) -/

/-- The state after visiting `C` (whose last candidate meaning is the
sentinel): the meaning `m1` is captured but capture stays open. -/
def stCD1 : TravState :=
  { pending_ids := ["D"], mean_list := ["m1"], example_list := [],
    is_meaning_fetched := false, meaning := PyStrVar.pynone }

/-- The state after additionally visiting `D`: its meaning is appended
too. -/
def stCD2 : TravState :=
  { pending_ids := [], mean_list := ["m1", "m2"], example_list := [],
    is_meaning_fetched := true, meaning := PyStrVar.pstr "m2" }

/-- Claim C7, counterexample: node `C` contributes the non-sentinel
meaning `m1`, yet because its last examined candidate carries the
sentinel suffix, `is_meaning_fetched` stays `False` and the later node
`D` appends `m2` as well — the final meaning list is `[m1, m2]`, so a
node that contributed meanings did not close capture. -/
theorem meanings_capture_counterexample :
    loopStep srcCD (initState "C") = .ok (some stCD1) ∧
    stCD1.mean_list = ["m1"] ∧
    pyEndsWith "m1" etymon_sign = false ∧
    stCD1.is_meaning_fetched = false ∧
    loopStep srcCD stCD1 = .ok (some stCD2) ∧
    stCD2.mean_list = ["m1", "m2"] ∧
    fetch_word_data srcCD "C" 3 = .ok (["m1", "m2"], []) :=
  ⟨rfl, rfl, by decide, rfl, rfl, rfl, rfl⟩

/-- Claim C7, amended: (1) once `is_meaning_fetched` is set — which
happens when the last examined candidate of a node is non-sentinel and
truthy — no later node appends meanings and the flag stays set; (2) a
node all of whose candidate meanings carry the sentinel suffix appends
no meanings and leaves capture open (when capture was open and the
`meaning` variable was not stale-truthy); (3) examples are accumulated
from every visited node, filtered by the word-count bounds. -/
theorem meanings_capture_amended :
    (∀ (node : WordNode) (st st2 : TravState),
        processNode node st = .ok st2 → st.is_meaning_fetched = true →
        st2.mean_list = st.mean_list ∧ st2.is_meaning_fetched = true) ∧
    (∀ (node : WordNode) (st st2 : TravState),
        st.is_meaning_fetched = false → pyTruthy st.meaning ≠ .ok true →
        (∀ c ∈ (node.meanItems.map MeanItem.conts).join,
          ∃ m, c.mean = some m ∧ pyEndsWith m etymon_sign = true) →
        processNode node st = .ok st2 →
        st2.mean_list = st.mean_list ∧ st2.is_meaning_fetched = false) ∧
    (∀ (node : WordNode) (st st2 : TravState),
        processNode node st = .ok st2 →
        st2.example_list = st.example_list ++
          (node.meanItems.map (fun mi => mi.examples.filterMap exampleKept)).join) := by
  refine ⟨?_, ?_, ?_⟩
  · intro node st st2 hok hf
    obtain ⟨st1, _, hml, hfch, _, _, st4, hpm, b, _, hst2⟩ := processNode_decomp _ _ _ hok
    have hf1 : st1.is_meaning_fetched = true := hfch.trans hf
    obtain ⟨h1, _, h3⟩ := processMeanItems_fetched_closed _ _ _ hf1 hpm
    have hmean2 : st2.mean_list = st4.mean_list := by
      rw [hst2]
      cases b <;> rfl
    constructor
    · rw [hmean2, h1, hml]
    · rw [hst2]
      cases b
      · exact h3
      · rfl
  · intro node st st2 hf hfal hsent hok
    obtain ⟨st1, _, hml, hfch, hmn, _, st4, hpm, b, hpt, hst2⟩ := processNode_decomp _ _ _ hok
    have hf1 : st1.is_meaning_fetched = false := hfch.trans hf
    obtain ⟨h1, h2, h3⟩ := processMeanItems_all_sentinel _ _ _ hf1 hsent hpm
    have hbfalse : b = false := by
      rcases h2 with h | h
      · have hpt2 : pyTruthy st.meaning = .ok b := by
          rw [← hmn, ← h]
          exact hpt
        cases b
        · rfl
        · exact absurd hpt2 hfal
      · rw [h] at hpt
        simp only [pyTruthy, Except.ok.injEq] at hpt
        exact hpt.symm
    subst hbfalse
    have hst2f : st2 = st4 := by
      rw [hst2]
      simp
    constructor
    · rw [hst2f, h1, hml]
    · rw [hst2f, h3]
  · intro node st st2 hok
    obtain ⟨st1, _, _, _, _, hex, st4, hpm, b, _, hst2⟩ := processNode_decomp _ _ _ hok
    have h4 := processMeanItems_examples _ _ _ hpm
    have hex2 : st2.example_list = st4.example_list := by
      rw [hst2]
      cases b <;> rfl
    rw [hex2, h4, hex]

/-- A state with meaning capture already closed. -/
def stW : TravState :=
  { pending_ids := [], mean_list := [], example_list := [],
    is_meaning_fetched := true, meaning := PyStrVar.pstr "m0" }

/-- A node all of whose candidate meanings carry the sentinel suffix. -/
def nodeSent : WordNode :=
  { derived := none
    meanItems :=
      [{ conts := [{ mean := some ("z" ++ etymon_sign), addition := none }], examples := [] }]
    awaitTimeout := false }

/-- A fresh traversal state (capture open, `meaning` unbound). -/
def stE0 : TravState :=
  { pending_ids := [], mean_list := [], example_list := [],
    is_meaning_fetched := false, meaning := PyStrVar.unbound }

/-- The state after processing `nodeSent` from `stE0`. -/
def stE2 : TravState :=
  { pending_ids := [], mean_list := [], example_list := [],
    is_meaning_fetched := false, meaning := PyStrVar.pynone }

/-- A node with one plain meaning and two examples, one of which is out
of the word-count bounds. -/
def nodeEx : WordNode :=
  { derived := none
    meanItems :=
      [{ conts := [{ mean := some "mx", addition := none }]
         examples := ["one two three", "a"] }]
    awaitTimeout := false }

/-- The state after processing `nodeEx` from `stE0`. -/
def stX2 : TravState :=
  { pending_ids := [], mean_list := ["mx"], example_list := ["one two three"],
    is_meaning_fetched := true, meaning := PyStrVar.pstr "mx" }

/-- Witness for `meanings_capture_amended`: each of the three parts
applied at a concrete node and state. -/
theorem meanings_capture_amended_witness :
    (stW.mean_list = stW.mean_list ∧ stW.is_meaning_fetched = true) ∧
    (stE2.mean_list = stE0.mean_list ∧ stE2.is_meaning_fetched = false) ∧
    (stX2.example_list = stE0.example_list ++
      (nodeEx.meanItems.map (fun mi => mi.examples.filterMap exampleKept)).join) :=
  ⟨meanings_capture_amended.1 nodeD stW stW rfl rfl,
   meanings_capture_amended.2.1 nodeSent stE0 stE2 rfl (fun h => Except.noConfusion h)
     (by
       intro c hc
       simp only [nodeSent, List.map_cons, List.map_nil, List.join_cons, List.join_nil,
         List.append_nil, List.mem_singleton] at hc
       subst hc
       exact ⟨"z" ++ etymon_sign, rfl, by decide⟩)
     rfl,
   meanings_capture_amended.2.2 nodeEx stE0 stX2 rfl⟩

/-! ## Claim about entry-resolver error handling (C9) -/

/-- A search page whose first row carries a link whose text will not
match the standardized query. -/
def srcMismatch : HanjaSource :=
  { searchTimeout := false, rows := [some ("X", "h/id")], detailTimeout := false
    componentEntry := true, entryMean := none, infos := [], strokeWord := none
    conditions := [] }

/-- Claim C9, counterexample: with no `.row` search results at all — an
absent element — `fetch_hanja_data` raises `IndexError` instead of
returning a NotFound record; the failure propagates as an exception. -/
theorem fetch_hanja_absent_element_propagates :
    fetch_hanja_data (fun s => s) srcRowsEmpty "木" =
      .error "IndexError: list index out of range" := rfl

/-- Claim C9, amended: timeouts are caught inside `get_await` (which
always returns normally and only logs); the NotFound triple
`(hanja, None, None)` is produced exactly when the first candidate's
label differs from the standardized query; an absent element inside
`fetch_hanja_data` itself raises an exception (`NoSuchElementException`
or `IndexError`) that propagates out uncaught. -/
theorem fetch_hanja_error_amended :
    (∀ (standardize : String → String) (src : HanjaSource) (hanja text href : String),
        src.rows[0]? = some (some (text, href)) → text ≠ standardize hanja →
        fetch_hanja_data standardize src hanja = .ok (hanja, none, none)) ∧
    (∀ b, get_await b = .ok ()) ∧
    fetch_hanja_data (fun s => s) srcNoLink "木" =
      .error "NoSuchElementException: .hanja_word .hanja_link" := by
  refine ⟨?_, get_await_ok, rfl⟩
  intro standardize src hanja text href h0 hne
  simp only [fetch_hanja_data, get_await_ok, h0, if_neg hne]

/-- Witness for the mismatch half of `fetch_hanja_error_amended`. -/
theorem fetch_hanja_error_amended_witness :
    fetch_hanja_data (fun s => s) srcMismatch "木" = .ok ("木", none, none) :=
  fetch_hanja_error_amended.1 (fun s => s) srcMismatch "木" "X" "h/id" rfl (by decide)

end AnkiHanja
